import Mathlib

/-!
Verification of the Wordsmith-Collocates repository: a shallow embedding of
its toast notification queue (reducer plus timer-driven removal effect) and
of the page-level search handler, with theorems checking the specification
claims against the code.
-/

namespace WC

/-! ## Configuration constants (from the toast hook source) -/

/-- Maximum number of toasts shown at once (`TOAST_LIMIT = 1`). -/
def TOAST_LIMIT : Nat := 1

/-- Delay in ms before removing a dismissed toast from state (`TOAST_REMOVE_DELAY = 5000`). -/
def TOAST_REMOVE_DELAY : Nat := 5000

/-! ## Data model: `ToasterToast`, actions, reducer state -/

/-- One toast entry. `isOpen` models the source field `open` (an optional
boolean in the TypeScript type); `title`, `description` and `variant` stand
for the opaque display payload. -/
structure ToasterToast where
  id : String
  title : Option String
  description : Option String
  variant : Option String
  isOpen : Option Bool
deriving DecidableEq, Repr

/-- A partial update payload for `UPDATE_TOAST` (the TypeScript type is a
partial toast together with a required `id`). A `none` payload field is
absent from the payload, so the merge keeps the existing toast field. -/
structure ToastPatch where
  id : String
  title : Option String
  description : Option String
  variant : Option String
  isOpen : Option Bool
deriving DecidableEq, Repr

/-- The object spread `\x7b ...t, ...patch \x7d` on one optional field:
a field present in the patch wins, otherwise the toast keeps its value. -/
def mergeField {α : Type} (pv : Option α) (tv : Option α) : Option α :=
  match pv with
  | some v => some v
  | none => tv

/-- The merge `\x7b ...t, ...action.toast \x7d` performed by `UPDATE_TOAST`. -/
def applyPatch (t : ToasterToast) (p : ToastPatch) : ToasterToast :=
  { id := p.id
    title := mergeField p.title t.title
    description := mergeField p.description t.description
    variant := mergeField p.variant t.variant
    isOpen := mergeField p.isOpen t.isOpen }

/-- The four reducer actions. -/
inductive Action where
  | addToast (toast : ToasterToast)
  | updateToast (toast : ToastPatch)
  | dismissToast (toastId : Option String)
  | removeToast (toastId : Option String)
deriving DecidableEq, Repr

/-- Reducer state: the list of current toasts. -/
structure State where
  toasts : List ToasterToast
deriving DecidableEq, Repr

/-- The function mapped over the list by `DISMISS_TOAST`: close the toast
when its id matches, or when no target id was given (dismiss all). -/
def dismissTarget (toastId : Option String) (t : ToasterToast) : ToasterToast :=
  if toastId = some t.id ∨ toastId = none then { t with isOpen := some false } else t

/-- The pure reducer from the source: `ADD_TOAST` prepends and truncates to
`TOAST_LIMIT`; `UPDATE_TOAST` merges into the id-matched toast; `DISMISS_TOAST`
closes the matched toast (or all); `REMOVE_TOAST` deletes the matched toast
(or clears the list). -/
def reducer (state : State) (action : Action) : State :=
  match action with
  | .addToast t => { state with toasts := (t :: state.toasts).take TOAST_LIMIT }
  | .updateToast p =>
      { state with toasts := state.toasts.map (fun t => if t.id = p.id then applyPatch t p else t) }
  | .dismissToast toastId =>
      { state with toasts := state.toasts.map (dismissTarget toastId) }
  | .removeToast toastId =>
      match toastId with
      | none => { state with toasts := [] }
      | some i => { state with toasts := state.toasts.filter (fun t => t.id ≠ i) }

/-- The per-toast `update` handle returned by `createToast`: it dispatches
`UPDATE_TOAST` with `\x7b ...props, id \x7d`, so the bound id always overwrites
whatever id the caller put in the props. -/
def handleUpdate (id : String) (props : ToastPatch) : Action :=
  .updateToast { props with id := id }

/-! ## Claim C3: capacity bound of ADD_TOAST -/

/-- Applying a sequence of `ADD_TOAST` actions from a given state. -/
def applyAdds (ts : List ToasterToast) (s : State) : State :=
  ts.foldl (fun s t => reducer s (.addToast t)) s

theorem applyAdds_cons (t : ToasterToast) (ts : List ToasterToast) (s : State) :
    applyAdds (t :: ts) s = applyAdds ts (reducer s (.addToast t)) := rfl

theorem length_add_le (s : State) (t : ToasterToast) :
    (reducer s (.addToast t)).toasts.length ≤ TOAST_LIMIT := by
  simp [reducer, TOAST_LIMIT, List.length_take]

theorem applyAdds_length_le (ts : List ToasterToast) (s : State)
    (h : s.toasts.length ≤ TOAST_LIMIT) :
    (applyAdds ts s).toasts.length ≤ TOAST_LIMIT := by
  induction ts generalizing s with
  | nil => exact h
  | cons t ts ih => exact (applyAdds_cons t ts s) ▸ ih _ (length_add_le s t)

/-- Claim C3: starting from the empty queue, the toasts list length never
exceeds `TOAST_LIMIT` under any sequence of adds, and immediately after every
add the just-added toast is present (since `TOAST_LIMIT = 1 > 0`). -/
theorem C3_add_capacity :
    (∀ (s : State) (t : ToasterToast),
       (reducer s (.addToast t)).toasts.length ≤ TOAST_LIMIT
       ∧ t ∈ (reducer s (.addToast t)).toasts)
    ∧ (∀ ts : List ToasterToast,
         (applyAdds ts { toasts := [] }).toasts.length ≤ TOAST_LIMIT) := by
  refine ⟨fun s t => ⟨length_add_le s t, ?_⟩, fun ts => applyAdds_length_le ts _ (by simp)⟩
  simp [reducer, TOAST_LIMIT]

/-! ## The timer-driven removal effect (`useToast` useEffect) -/

/-- Combined system state: the reducer state plus the pending removal timers
(the `toastTimeoutsRef` map, as an ordered list of id / remaining-ms pairs). -/
structure SysState where
  toasts : List ToasterToast
  timeouts : List (String × Nat)
deriving DecidableEq, Repr

/-- Membership test `timeouts.has(id)`: is a removal timer pending for this id? -/
def hasTimeout (timeouts : List (String × Nat)) (i : String) : Bool :=
  timeouts.any (fun e => e.1 == i)

/-- One iteration of the effect loop: if the toast is closed and no removal
timer is pending for its id, arm a `TOAST_REMOVE_DELAY` timer for it. -/
def armStep (acc : List (String × Nat)) (t : ToasterToast) : List (String × Nat) :=
  if t.isOpen = some false ∧ hasTimeout acc t.id = false then
    acc ++ [(t.id, TOAST_REMOVE_DELAY)]
  else acc

/-- The removal effect: walk the current toasts, arming a timer for every
closed toast that has none pending (checked against the live map). -/
def runEffect (s : SysState) : SysState :=
  { toasts := s.toasts, timeouts := s.toasts.foldl armStep s.timeouts }

/-- Dispatch an action through the reducer; the effect runs afterwards. -/
def dispatchE (s : SysState) (a : Action) : SysState :=
  runEffect { toasts := (reducer { toasts := s.toasts } a).toasts, timeouts := s.timeouts }

/-- Time passes by `d` milliseconds: the remaining time of every pending timer drops by `d`. -/
def elapse (d : Nat) (s : SysState) : SysState :=
  { toasts := s.toasts, timeouts := s.timeouts.map (fun e => (e.1, e.2 - d)) }

/-- A due timer for id `i` fires: its callback dispatches `REMOVE_TOAST` for
`i` and deletes its own map entry, after which the effect runs again. -/
def fireTimer (s : SysState) (i : String) : SysState :=
  runEffect { toasts := (reducer { toasts := s.toasts } (.removeToast (some i))).toasts,
              timeouts := s.timeouts.filter (fun e => e.1 ≠ i) }

/-- Number of pending timers for id `i`. -/
def countTimeouts (timeouts : List (String × Nat)) (i : String) : Nat :=
  (timeouts.filter (fun e => e.1 = i)).length

theorem hasTimeout_append (acc acc2 : List (String × Nat)) (i : String) :
    hasTimeout (acc ++ acc2) i = (hasTimeout acc i || hasTimeout acc2 i) := by
  simp [hasTimeout]

theorem hasTimeout_armStep_mono (acc : List (String × Nat)) (t : ToasterToast) (i : String)
    (h : hasTimeout acc i = true) : hasTimeout (armStep acc t) i = true := by
  unfold armStep
  split
  · simp [hasTimeout_append, h]
  · exact h

theorem hasTimeout_fold_mono (l : List ToasterToast) (acc : List (String × Nat)) (i : String)
    (h : hasTimeout acc i = true) : hasTimeout (l.foldl armStep acc) i = true := by
  induction l generalizing acc with
  | nil => exact h
  | cons t l ih => exact ih (armStep acc t) (hasTimeout_armStep_mono acc t i h)

theorem hasTimeout_fold_arm (l : List ToasterToast) :
    ∀ (acc : List (String × Nat)) (t : ToasterToast), t ∈ l → t.isOpen = some false →
      hasTimeout (l.foldl armStep acc) t.id = true := by
  induction l with
  | nil => intro _ _ ht _; cases ht
  | cons t0 l ih =>
      intro acc t ht hopen
      rw [List.foldl_cons]
      rcases List.mem_cons.mp ht with h | h
      · subst h
        by_cases hhas : hasTimeout acc t.id = true
        · exact hasTimeout_fold_mono l (armStep acc t) t.id (hasTimeout_armStep_mono acc t t.id hhas)
        · have harm : armStep acc t = acc ++ [(t.id, TOAST_REMOVE_DELAY)] := by
            unfold armStep
            rw [if_pos ⟨hopen, Bool.eq_false_iff.mpr hhas⟩]
          refine hasTimeout_fold_mono l _ t.id ?_
          simp [harm, hasTimeout_append, hasTimeout]
      · exact ih (armStep acc t0) t h hopen

theorem mem_fold_armStep (l : List ToasterToast) (acc : List (String × Nat))
    (e : String × Nat) (he : e ∈ l.foldl armStep acc) :
    e ∈ acc ∨ e.2 = TOAST_REMOVE_DELAY := by
  induction l generalizing acc with
  | nil => exact Or.inl he
  | cons t l ih =>
      rcases ih (armStep acc t) he with h | h
      · unfold armStep at h
        split at h
        · rcases List.mem_append.mp h with h | h
          · exact Or.inl h
          · right
            simp only [List.mem_singleton] at h
            rw [h]
        · exact Or.inl h
      · exact Or.inr h

theorem hasTimeout_false_iff_count_zero (acc : List (String × Nat)) (i : String) :
    hasTimeout acc i = false ↔ countTimeouts acc i = 0 := by
  simp [hasTimeout, countTimeouts, List.length_eq_zero, List.filter_eq_nil_iff]

theorem countTimeouts_append (acc acc2 : List (String × Nat)) (i : String) :
    countTimeouts (acc ++ acc2) i = countTimeouts acc i + countTimeouts acc2 i := by
  simp [countTimeouts, List.filter_append]

theorem countTimeouts_fold_stable (l : List ToasterToast) :
    ∀ (acc : List (String × Nat)) (i : String), hasTimeout acc i = true →
      countTimeouts (l.foldl armStep acc) i = countTimeouts acc i := by
  induction l with
  | nil => intro _ _ _; rfl
  | cons t l ih =>
      intro acc i h
      have hstep : countTimeouts (armStep acc t) i = countTimeouts acc i := by
        unfold armStep
        split
        · next hc =>
            have hne : t.id ≠ i := by
              intro heq
              rw [heq] at hc
              rw [hc.2] at h
              cases h
            simp [countTimeouts_append, countTimeouts, hne]
        · rfl
      rw [List.foldl_cons, ih (armStep acc t) i (hasTimeout_armStep_mono acc t i h), hstep]

theorem countTimeouts_fold_arm_once (l : List ToasterToast) :
    ∀ (acc : List (String × Nat)) (i : String), countTimeouts acc i = 0 →
      (∃ t ∈ l, t.id = i ∧ t.isOpen = some false) →
      countTimeouts (l.foldl armStep acc) i = 1 := by
  induction l with
  | nil => intro _ _ _ hw; simp at hw
  | cons t0 l ih =>
      intro acc i hz hw
      have hhasf : hasTimeout acc i = false := (hasTimeout_false_iff_count_zero acc i).mpr hz
      rw [List.foldl_cons]
      by_cases hhead : t0.id = i ∧ t0.isOpen = some false
      · have harm : armStep acc t0 = acc ++ [(i, TOAST_REMOVE_DELAY)] := by
          unfold armStep
          rw [if_pos ⟨hhead.2, by rw [hhead.1]; exact hhasf⟩, hhead.1]
        have hcount : countTimeouts (armStep acc t0) i = 1 := by
          rw [harm, countTimeouts_append, hz]
          simp [countTimeouts]
        have hhast : hasTimeout (armStep acc t0) i = true := by
          simp [harm, hasTimeout_append, hasTimeout]
        rw [countTimeouts_fold_stable l (armStep acc t0) i hhast, hcount]
      · rcases hw with ⟨t, htl, hti, hto⟩
        have htl2 : t ∈ l := by
          rcases List.mem_cons.mp htl with h | h
          · exact absurd (h ▸ ⟨hti, hto⟩) hhead
          · exact h
        have hstep : countTimeouts (armStep acc t0) i = 0 := by
          unfold armStep
          split
          · next hc =>
              have hne : t0.id ≠ i := by
                intro heq
                exact hhead ⟨heq, hc.1⟩
              rw [countTimeouts_append, hz]
              simp [countTimeouts, hne]
          · exact hz
        exact ih (armStep acc t0) i hstep ⟨t, htl2, hti, hto⟩

/-- Every closed toast has a pending removal timer. -/
def saturated (s : SysState) : Prop :=
  ∀ t ∈ s.toasts, t.isOpen = some false → hasTimeout s.timeouts t.id = true

theorem runEffect_saturated (s : SysState) : saturated (runEffect s) := by
  intro t ht hopen
  exact hasTimeout_fold_arm s.toasts s.timeouts t ht hopen

theorem fold_armStep_of_saturated (l : List ToasterToast) (acc : List (String × Nat))
    (h : ∀ t ∈ l, t.isOpen = some false → hasTimeout acc t.id = true) :
    l.foldl armStep acc = acc := by
  induction l with
  | nil => rfl
  | cons t l ih =>
      have hstep : armStep acc t = acc := by
        unfold armStep
        split
        · next hc => exact absurd (h t (List.mem_cons_self t l) hc.1) (by simp [hc.2])
        · rfl
      rw [List.foldl_cons, hstep, ih (fun t ht => h t (List.mem_cons_of_mem _ ht))]

theorem runEffect_of_saturated (s : SysState) (h : saturated s) : runEffect s = s := by
  unfold runEffect
  rw [fold_armStep_of_saturated s.toasts s.timeouts h]

theorem runEffect_idem (s : SysState) : runEffect (runEffect s) = runEffect s :=
  runEffect_of_saturated (runEffect s) (runEffect_saturated s)

/-! ## Generic list helpers -/

theorem list_map_eq_self {α : Type} (l : List α) (f : α → α) (h : ∀ a ∈ l, f a = a) :
    l.map f = l := by
  induction l with
  | nil => rfl
  | cons a l ih =>
      rw [List.map_cons, h a (List.mem_cons_self a l),
        ih (fun b hb => h b (List.mem_cons_of_mem a hb))]

/-! ## Claim C6: idempotence of dismiss -/

theorem dismissTarget_id (tid : Option String) (t : ToasterToast) :
    (dismissTarget tid t).id = t.id := by
  unfold dismissTarget
  split <;> rfl

theorem dismissTarget_idem (tid : Option String) (t : ToasterToast) :
    dismissTarget tid (dismissTarget tid t) = dismissTarget tid t := by
  unfold dismissTarget
  split <;> rfl

/-- Claim C6: dismissing twice in immediate succession (a specific id or all)
equals dismissing once, both for the pure reducer and for the dispatch that
also runs the removal effect. -/
theorem C6_dismiss_idempotent (tid : Option String) :
    (∀ s : State,
       reducer (reducer s (.dismissToast tid)) (.dismissToast tid)
         = reducer s (.dismissToast tid))
    ∧ (∀ ss : SysState,
       dispatchE (dispatchE ss (.dismissToast tid)) (.dismissToast tid)
         = dispatchE ss (.dismissToast tid)) := by
  have hmap : ∀ l : List ToasterToast,
      (l.map (dismissTarget tid)).map (dismissTarget tid) = l.map (dismissTarget tid) := by
    intro l
    rw [List.map_map]
    exact List.map_congr_left (fun t _ => dismissTarget_idem tid t)
  constructor
  · intro s
    show ({ toasts := ((reducer s (.dismissToast tid)).toasts).map (dismissTarget tid) } : State)
        = reducer s (.dismissToast tid)
    rw [show (reducer s (.dismissToast tid)).toasts = s.toasts.map (dismissTarget tid) from rfl,
      hmap]
    rfl
  · intro ss
    show runEffect { toasts := ((dispatchE ss (.dismissToast tid)).toasts).map (dismissTarget tid),
                     timeouts := (dispatchE ss (.dismissToast tid)).timeouts }
        = dispatchE ss (.dismissToast tid)
    rw [show (dispatchE ss (.dismissToast tid)).toasts = ss.toasts.map (dismissTarget tid) from rfl,
      hmap]
    exact runEffect_idem { toasts := ss.toasts.map (dismissTarget tid), timeouts := ss.timeouts }

/-! ## Claim C10: frame property of UPDATE_TOAST -/

theorem applyPatch_id (t : ToasterToast) (p : ToastPatch) : (applyPatch t p).id = p.id := rfl

/-- Claim C10: an update changes only the id-matched toast: the id sequence
(hence the length and the order) is unchanged, every non-matching position is
untouched, and an update dispatched through the per-toast handle can only
touch the bound id of the handle, whatever id sits in the props of the caller. -/
theorem C10_update_frame (s : State) (p : ToastPatch) :
    ((reducer s (.updateToast p)).toasts.map (fun t => t.id) = s.toasts.map (fun t => t.id))
    ∧ ((reducer s (.updateToast p)).toasts.length = s.toasts.length)
    ∧ (∀ (k : Nat) (t : ToasterToast), s.toasts[k]? = some t → t.id ≠ p.id →
         (reducer s (.updateToast p)).toasts[k]? = some t)
    ∧ (∀ (i : String) (props : ToastPatch) (k : Nat) (t : ToasterToast),
         s.toasts[k]? = some t → t.id ≠ i →
         (reducer s (handleUpdate i props)).toasts[k]? = some t) := by
  have hpoint : ∀ (q : ToastPatch) (t : ToasterToast),
      t.id ≠ q.id → (if t.id = q.id then applyPatch t q else t) = t := by
    intro q t hne
    rw [if_neg hne]
  have hget : ∀ (q : ToastPatch) (k : Nat) (t : ToasterToast),
      s.toasts[k]? = some t → t.id ≠ q.id →
      (reducer s (.updateToast q)).toasts[k]? = some t := by
    intro q k t hk hne
    show (s.toasts.map (fun t => if t.id = q.id then applyPatch t q else t))[k]? = some t
    rw [List.getElem?_map, hk, Option.map_some', hpoint q t hne]
  refine ⟨?_, ?_, hget p, ?_⟩
  · show (s.toasts.map (fun t => if t.id = p.id then applyPatch t p else t)).map (fun t => t.id)
        = s.toasts.map (fun t => t.id)
    rw [List.map_map]
    refine List.map_congr_left (fun t _ => ?_)
    simp only [Function.comp_apply]
    by_cases h : t.id = p.id
    · rw [if_pos h, applyPatch_id, h]
    · rw [if_neg h]
  · exact List.length_map _ _
  · intro i props k t hk hne
    exact hget { props with id := i } k t hk hne

/-! ## Claim C4: can a dismissed toast reopen? -/

/-- Counterexample to claim C4: a dismissed toast (its `open` flag already
`false`) is reopened by an update dispatched through its own update handle
whose partial payload contains `open: true` — `UPDATE_TOAST` merges every
payload field, `open` included. -/
theorem C4_counterexample :
    (reducer
        { toasts := [{ id := "1", title := none, description := none,
                       variant := none, isOpen := some false }] }
        (handleUpdate "1"
          { id := "1", title := none, description := none,
            variant := none, isOpen := some true })).toasts.map (fun u => u.isOpen)
      = [some true] := by
  rfl

/-- Actions that cannot reopen the toast with id `i`: an add must carry a
different (fresh) id, and an update targeting `i` must not carry
`open: true` in its payload. Dismiss and remove never set `open` to true. -/
def cannotReopen (a : Action) (i : String) : Prop :=
  match a with
  | .addToast t => t.id ≠ i
  | .updateToast p => p.id = i → p.isOpen ≠ some true
  | .dismissToast _ => True
  | .removeToast _ => True

/-- Claim C4 (amended): once the toast with id `i` has `open = false`, it
stays `false` under every action except an update whose payload targets `i`
and itself sets `open: true` (and an add reusing the id, which the fresh id
counter rules out). -/
theorem C4_amended_no_reopen (s : State) (a : Action) (i : String)
    (hdis : ∀ t ∈ s.toasts, t.id = i → t.isOpen = some false)
    (ha : cannotReopen a i) :
    ∀ u ∈ (reducer s a).toasts, u.id = i → u.isOpen = some false := by
  cases a with
  | addToast t' =>
      intro u hu hui
      have hu2 : u ∈ t' :: s.toasts := List.take_subset _ _ hu
      rcases List.mem_cons.mp hu2 with h | h
      · exact absurd (h ▸ hui) ha
      · exact hdis u h hui
  | updateToast p =>
      intro u hu hui
      rcases List.mem_map.mp hu with ⟨t, htl, hteq⟩
      by_cases hid : t.id = p.id
      · rw [if_pos hid] at hteq
        have hpid : p.id = i := by rw [← hteq] at hui; exact hui
        have htid : t.id = i := hid.trans hpid
        have htopen : t.isOpen = some false := hdis t htl htid
        have hpo : p.isOpen ≠ some true := ha hpid
        rw [← hteq]
        show mergeField p.isOpen t.isOpen = some false
        cases hp : p.isOpen with
        | none => rw [mergeField]; exact htopen
        | some b =>
            cases b with
            | true => exact absurd hp hpo
            | false => rfl
      · rw [if_neg hid] at hteq
        exact hdis u (hteq ▸ htl) hui
  | dismissToast tid =>
      intro u hu hui
      rcases List.mem_map.mp hu with ⟨t, htl, hteq⟩
      unfold dismissTarget at hteq
      by_cases hc : tid = some t.id ∨ tid = none
      · rw [if_pos hc] at hteq
        rw [← hteq]
      · rw [if_neg hc] at hteq
        exact hdis u (hteq ▸ htl) hui
  | removeToast tid =>
      intro u hu hui
      cases tid with
      | none => cases hu
      | some j => exact hdis u (List.mem_of_mem_filter hu) hui

theorem C4_amended_no_reopen_witness :
    (dismissTarget none { id := "1", title := none, description := none,
                          variant := none, isOpen := some false }).isOpen = some false := by
  refine C4_amended_no_reopen
    { toasts := [{ id := "1", title := none, description := none,
                   variant := none, isOpen := some false }] }
    (.dismissToast none) "1" (by decide) trivial
    (dismissTarget none { id := "1", title := none, description := none,
                          variant := none, isOpen := some false }) ?_ rfl
  exact List.mem_singleton.mpr rfl

theorem C10_update_frame_witness :
    (reducer
        { toasts := [{ id := "2", title := none, description := none,
                       variant := none, isOpen := some true }] }
        (.updateToast { id := "1", title := some "x", description := none,
                        variant := none, isOpen := none })).toasts[0]?
      = some { id := "2", title := none, description := none,
               variant := none, isOpen := some true } :=
  (C10_update_frame _ _).2.2.1 0 _ rfl (by decide)

/-! ## Operations on an absent id are no-ops -/

theorem dismissTarget_dismisses (i : String) (t : ToasterToast) (h : t.id = i) :
    dismissTarget (some i) t = { t with isOpen := some false } := by
  unfold dismissTarget
  rw [if_pos (Or.inl (by rw [h]))]

theorem update_toasts_noop (l : List ToasterToast) (p : ToastPatch)
    (h : ∀ u ∈ l, u.id ≠ p.id) :
    l.map (fun t => if t.id = p.id then applyPatch t p else t) = l :=
  list_map_eq_self _ _ (fun t ht => if_neg (h t ht))

theorem dismiss_toasts_noop (l : List ToasterToast) (i : String)
    (h : ∀ u ∈ l, u.id ≠ i) :
    l.map (dismissTarget (some i)) = l :=
  list_map_eq_self _ _ (fun t ht => by
    unfold dismissTarget
    rw [if_neg]
    rintro (hc | hc)
    · exact h t ht (Option.some.inj hc).symm
    · exact Option.noConfusion hc)

theorem remove_toasts_noop (l : List ToasterToast) (i : String)
    (h : ∀ u ∈ l, u.id ≠ i) :
    l.filter (fun t => t.id ≠ i) = l := by
  induction l with
  | nil => rfl
  | cons a l ih =>
      rw [List.filter_cons]
      rw [if_pos (decide_eq_true (h a (List.mem_cons_self a l)))]
      rw [ih (fun u hu => h u (List.mem_cons_of_mem a hu))]

theorem dispatchE_noop (s3 : SysState) (a : Action)
    (hsat : saturated s3)
    (htoasts : (reducer { toasts := s3.toasts } a).toasts = s3.toasts) :
    dispatchE s3 a = s3 := by
  unfold dispatchE
  rw [htoasts]
  exact runEffect_of_saturated s3 hsat

theorem fireTimer_saturated (s : SysState) (i : String) : saturated (fireTimer s i) := by
  unfold fireTimer
  exact runEffect_saturated _

theorem fireTimer_absent (s : SysState) (i : String) :
    ∀ u ∈ (fireTimer s i).toasts, u.id ≠ i := by
  intro u hu
  have h2 : u ∈ s.toasts.filter (fun t => t.id ≠ i) := hu
  exact of_decide_eq_true (List.mem_filter.mp h2).2

/-! ## Claim C1: removal after the delay, then not-found for every operation -/

/-- Claim C1: dismissing toast `i` (present, no timer pending) arms a
`TOAST_REMOVE_DELAY` timer; once that delay has elapsed the timer is due, and
firing it leaves a state where no toast has id `i` and where a subsequent
update, dismiss or remove naming `i` returns the state completely unchanged. -/
theorem C1_removed_after_delay (s : SysState) (i : String)
    (hmem : ∃ t ∈ s.toasts, t.id = i)
    (hno : hasTimeout s.timeouts i = false) :
    let s1 := dispatchE s (.dismissToast (some i))
    let s2 := elapse TOAST_REMOVE_DELAY s1
    let s3 := fireTimer s2 i
    (i, TOAST_REMOVE_DELAY) ∈ s1.timeouts
    ∧ (i, 0) ∈ s2.timeouts
    ∧ (∀ u ∈ s3.toasts, u.id ≠ i)
    ∧ (∀ p : ToastPatch, p.id = i → dispatchE s3 (.updateToast p) = s3)
    ∧ dispatchE s3 (.dismissToast (some i)) = s3
    ∧ dispatchE s3 (.removeToast (some i)) = s3 := by
  intro s1 s2 s3
  have harm : (i, TOAST_REMOVE_DELAY) ∈ s1.timeouts := by
    show (i, TOAST_REMOVE_DELAY)
        ∈ (s.toasts.map (dismissTarget (some i))).foldl armStep s.timeouts
    rcases hmem with ⟨t, htl, hti⟩
    have humem : ({ t with isOpen := some false } : ToasterToast)
        ∈ s.toasts.map (dismissTarget (some i)) := by
      have hm := List.mem_map_of_mem (dismissTarget (some i)) htl
      rwa [dismissTarget_dismisses i t hti] at hm
    have hhas := hasTimeout_fold_arm (s.toasts.map (dismissTarget (some i)))
      s.timeouts _ humem rfl
    unfold hasTimeout at hhas
    rcases List.any_eq_true.mp hhas with ⟨e, hemem, hbe⟩
    have hei : e.1 = i := by
      have : e.1 = ({ t with isOpen := some false } : ToasterToast).id := by
        simpa using hbe
      rw [this]
      exact hti
    rcases mem_fold_armStep _ _ e hemem with hacc | hdel
    · exfalso
      have : hasTimeout s.timeouts i = true := by
        unfold hasTimeout
        exact List.any_eq_true.mpr ⟨e, hacc, by simp [hei]⟩
      rw [this] at hno
      cases hno
    · have he : e = (i, TOAST_REMOVE_DELAY) := by
        rcases e with ⟨e1, e2⟩
        simp only at hei hdel
        rw [hei, hdel]
      exact he ▸ hemem
  have hdue : (i, 0) ∈ s2.timeouts := by
    show (i, 0) ∈ s1.timeouts.map (fun e => (e.1, e.2 - TOAST_REMOVE_DELAY))
    have hm := List.mem_map_of_mem (fun e => (e.1, e.2 - TOAST_REMOVE_DELAY)) harm
    simpa using hm
  have habs : ∀ u ∈ s3.toasts, u.id ≠ i := fireTimer_absent s2 i
  have hsat : saturated s3 := fireTimer_saturated s2 i
  refine ⟨harm, hdue, habs, ?_, ?_, ?_⟩
  · intro p hp
    refine dispatchE_noop s3 _ hsat ?_
    show s3.toasts.map (fun t => if t.id = p.id then applyPatch t p else t) = s3.toasts
    exact update_toasts_noop _ p (fun u hu => hp ▸ habs u hu)
  · refine dispatchE_noop s3 _ hsat ?_
    show s3.toasts.map (dismissTarget (some i)) = s3.toasts
    exact dismiss_toasts_noop _ i habs
  · refine dispatchE_noop s3 _ hsat ?_
    show s3.toasts.filter (fun t => t.id ≠ i) = s3.toasts
    exact remove_toasts_noop _ i habs

theorem C1_removed_after_delay_witness :
    ("1", TOAST_REMOVE_DELAY)
      ∈ (dispatchE { toasts := [{ id := "1", title := none, description := none,
                                  variant := none, isOpen := some true }], timeouts := [] }
          (.dismissToast (some "1"))).timeouts :=
  (C1_removed_after_delay
    { toasts := [{ id := "1", title := none, description := none,
                   variant := none, isOpen := some true }], timeouts := [] }
    "1" (by decide) rfl).1

/-! ## Claim C2: at most one removal timer per id -/

theorem countTimeouts_armStep_le (acc : List (String × Nat)) (t : ToasterToast) (i : String)
    (h : countTimeouts acc i ≤ 1) : countTimeouts (armStep acc t) i ≤ 1 := by
  unfold armStep
  split
  · next hc =>
      rw [countTimeouts_append]
      by_cases hti : t.id = i
      · have hz : countTimeouts acc i = 0 :=
          (hasTimeout_false_iff_count_zero acc i).mp (hti ▸ hc.2)
        rw [hz]
        simp [countTimeouts, hti]
      · have hz2 : countTimeouts [(t.id, TOAST_REMOVE_DELAY)] i = 0 := by
          simp [countTimeouts, hti]
        rw [hz2]
        simpa using h
  · exact h

theorem countTimeouts_fold_le (l : List ToasterToast) :
    ∀ (acc : List (String × Nat)) (i : String), countTimeouts acc i ≤ 1 →
      countTimeouts (l.foldl armStep acc) i ≤ 1 := by
  induction l with
  | nil => exact fun _ _ h => h
  | cons t l ih =>
      intro acc i h
      rw [List.foldl_cons]
      exact ih _ _ (countTimeouts_armStep_le acc t i h)

theorem countTimeouts_elapse (ts : List (String × Nat)) (d : Nat) (i : String) :
    countTimeouts (ts.map (fun e => (e.1, e.2 - d))) i = countTimeouts ts i := by
  induction ts with
  | nil => rfl
  | cons e ts ih =>
      simp only [countTimeouts, List.map_cons, List.filter_cons] at ih ⊢
      by_cases hc : e.1 = i
      · rw [if_pos (decide_eq_true hc), if_pos (decide_eq_true hc)]
        simp [ih]
      · rw [if_neg (by simp [hc]), if_neg (by simp [hc])]
        exact ih

theorem countTimeouts_filter_le (ts : List (String × Nat)) (q : String × Nat → Bool)
    (i : String) : countTimeouts (ts.filter q) i ≤ countTimeouts ts i := by
  unfold countTimeouts
  exact List.Sublist.length_le (List.Sublist.filter _ (List.filter_sublist ts))

/-- Claim C2: dismissing a present toast with no pending timer arms exactly
one removal timer for its id, and dismissing it again while that timer is
pending leaves the count at one — no second timer is armed. Moreover the
at-most-one-timer-per-id bound is an invariant: every dispatch, passage of
time, and timer firing preserves it. -/
theorem C2_one_timer (s : SysState) (i : String) :
    ((∃ t ∈ s.toasts, t.id = i) → hasTimeout s.timeouts i = false →
      countTimeouts (dispatchE s (.dismissToast (some i))).timeouts i = 1
      ∧ countTimeouts
          (dispatchE (dispatchE s (.dismissToast (some i)))
            (.dismissToast (some i))).timeouts i = 1)
    ∧ (countTimeouts s.timeouts i ≤ 1 →
        (∀ a : Action, countTimeouts (dispatchE s a).timeouts i ≤ 1)
        ∧ (∀ d : Nat, countTimeouts (elapse d s).timeouts i ≤ 1)
        ∧ (∀ j : String, countTimeouts (fireTimer s j).timeouts i ≤ 1)) := by
  constructor
  · intro hmem hno
    rcases hmem with ⟨t, htl, hti⟩
    have hz : countTimeouts s.timeouts i = 0 := (hasTimeout_false_iff_count_zero _ _).mp hno
    have hw : ∃ u ∈ s.toasts.map (dismissTarget (some i)),
        u.id = i ∧ u.isOpen = some false := by
      refine ⟨{ t with isOpen := some false }, ?_, hti, rfl⟩
      have hm := List.mem_map_of_mem (dismissTarget (some i)) htl
      rwa [dismissTarget_dismisses i t hti] at hm
    have h1 : countTimeouts (dispatchE s (.dismissToast (some i))).timeouts i = 1 := by
      show countTimeouts ((s.toasts.map (dismissTarget (some i))).foldl armStep s.timeouts) i
          = 1
      exact countTimeouts_fold_arm_once _ _ _ hz hw
    refine ⟨h1, ?_⟩
    have hhas1 : hasTimeout (dispatchE s (.dismissToast (some i))).timeouts i = true := by
      cases hhb : hasTimeout (dispatchE s (.dismissToast (some i))).timeouts i with
      | true => rfl
      | false =>
          have h0 := (hasTimeout_false_iff_count_zero _ _).mp hhb
          omega
    show countTimeouts
        (((dispatchE s (.dismissToast (some i))).toasts.map (dismissTarget (some i))).foldl
          armStep (dispatchE s (.dismissToast (some i))).timeouts) i = 1
    rw [countTimeouts_fold_stable _ _ _ hhas1, h1]
  · intro hle
    refine ⟨?_, ?_, ?_⟩
    · intro a
      show countTimeouts ((reducer { toasts := s.toasts } a).toasts.foldl armStep s.timeouts) i
          ≤ 1
      exact countTimeouts_fold_le _ _ _ hle
    · intro d
      show countTimeouts (s.timeouts.map (fun e => (e.1, e.2 - d))) i ≤ 1
      rw [countTimeouts_elapse]
      exact hle
    · intro j
      show countTimeouts
          ((s.toasts.filter (fun t => t.id ≠ j)).foldl armStep
            (s.timeouts.filter (fun e => e.1 ≠ j))) i ≤ 1
      exact countTimeouts_fold_le _ _ _ (le_trans (countTimeouts_filter_le _ _ _) hle)

theorem C2_one_timer_witness :
    countTimeouts
      (dispatchE { toasts := [{ id := "1", title := none, description := none,
                                variant := none, isOpen := some true }], timeouts := [] }
        (.dismissToast (some "1"))).timeouts "1" = 1 :=
  ((C2_one_timer
    { toasts := [{ id := "1", title := none, description := none,
                   variant := none, isOpen := some true }], timeouts := [] }
    "1").1 (by decide) rfl).1

/-! ## Claim C5: capacity eviction bypasses the dismiss path -/

/-- Claim C5: with `TOAST_LIMIT = 1`, adding a second toast to a state whose
single toast is still open and has no pending timer drops the first toast
outright: the new list is just the new toast, the timer map is untouched, no
timer exists for the first id, and the first toast is simply absent (it was
never transitioned through `open = false`). -/
theorem C5_capacity_eviction (t0 t1 : ToasterToast) (tos : List (String × Nat))
    (_h0 : t0.isOpen = some true) (h1 : t1.isOpen = some true)
    (hne : t1.id ≠ t0.id) (hnt : hasTimeout tos t0.id = false) :
    (dispatchE { toasts := [t0], timeouts := tos } (.addToast t1)).toasts = [t1]
    ∧ (dispatchE { toasts := [t0], timeouts := tos } (.addToast t1)).timeouts = tos
    ∧ hasTimeout (dispatchE { toasts := [t0], timeouts := tos } (.addToast t1)).timeouts t0.id
        = false
    ∧ ∀ u ∈ (dispatchE { toasts := [t0], timeouts := tos } (.addToast t1)).toasts,
        u.id ≠ t0.id := by
  have htoasts : (dispatchE { toasts := [t0], timeouts := tos } (.addToast t1)).toasts
      = [t1] := rfl
  have htime : (dispatchE { toasts := [t0], timeouts := tos } (.addToast t1)).timeouts
      = tos := by
    show armStep tos t1 = tos
    unfold armStep
    rw [if_neg]
    rintro ⟨hc, _⟩
    rw [h1] at hc
    exact Bool.noConfusion (Option.some.inj hc)
  refine ⟨htoasts, htime, ?_, ?_⟩
  · rw [htime]
    exact hnt
  · intro u hu
    rw [htoasts, List.mem_singleton] at hu
    rw [hu]
    exact hne

theorem C5_capacity_eviction_witness :
    (dispatchE
        { toasts := [{ id := "1", title := none, description := none,
                       variant := none, isOpen := some true }], timeouts := [] }
        (.addToast { id := "2", title := none, description := none,
                     variant := none, isOpen := some true })).toasts
      = [{ id := "2", title := none, description := none,
           variant := none, isOpen := some true }] :=
  (C5_capacity_eviction
    { id := "1", title := none, description := none, variant := none, isOpen := some true }
    { id := "2", title := none, description := none, variant := none, isOpen := some true }
    [] rfl rfl (by decide) rfl).1

/-! ## The page component: search handler, history, notifications -/

/-- One collocation as returned by the analysis service. -/
structure Collocation where
  collocate : String
  frequency : Int
  exampleSentences : List String
deriving DecidableEq, Repr

/-- The payload of one `toast(...)` call made by the page. -/
structure ToastCall where
  title : Option String
  description : Option String
  variant : Option String
deriving DecidableEq, Repr

/-- The outcome of `analyzeCollocations`: a resolved value whose
`collocations` field may be missing (nullish), or a rejection carrying an
optional error message. -/
inductive ServiceOutcome where
  | success (collocations : Option (List Collocation))
  | failure (message : Option String)
deriving DecidableEq, Repr

/-- The page state touched by `handleSearch`. -/
structure PageState where
  word : String
  collocations : List Collocation
  history : List String
  isLoading : Bool
deriving DecidableEq, Repr

/-- What one `handleSearch` run produces: the final state, the toasts it
surfaced, and the words it sent to the collocation service. -/
structure SearchResult where
  state : PageState
  toastCalls : List ToastCall
  serviceCalls : List String
deriving DecidableEq, Repr

/-- JavaScript `String.prototype.trim`: strip leading and trailing
whitespace (modelled over the character list, since the claims only need
whether the trimmed word is empty). -/
def jsTrim (s : String) : String :=
  String.mk (((s.data.dropWhile Char.isWhitespace).reverse.dropWhile Char.isWhitespace).reverse)

/-- The `setHistory` updater from `handleSearch`: prepend the word, drop any
prior occurrence of it, keep the 5 most recent. -/
def pushHistory (w : String) (h : List String) : List String :=
  (w :: h.filter (fun x => x ≠ w)).take 5

/-- JavaScript `error.message || generic`: the generic text stands in when
the message is missing or empty (falsy). -/
def orGeneric (message : Option String) (generic : String) : String :=
  match message with
  | some m => if m = "" then generic else m
  | none => generic

/-- The search handler from the first page variant: guard on the trimmed word,
service call with the trimmed word, empty-result branch, success branch that
pushes the history, catch branch that clears the displayed results, finally
branch that clears the loading flag. -/
def handleSearchV1 (s : PageState) (svc : ServiceOutcome) : SearchResult :=
  let trimmedWord := jsTrim s.word
  if trimmedWord = "" then
    { state := s,
      toastCalls := [{ title := some "Error",
                       description := some "Please enter a word to search for.",
                       variant := some "destructive" }],
      serviceCalls := [] }
  else
    match svc with
    | .failure msg =>
        { state := { s with collocations := [], isLoading := false },
          toastCalls := [{ title := some "Error",
                           description := some
                             (orGeneric msg "Failed to analyze collocations. Please try again."),
                           variant := some "destructive" }],
          serviceCalls := [trimmedWord] }
    | .success none =>
        { state := { s with collocations := [], isLoading := false },
          toastCalls := [{ title := some "No Collocations Found",
                           description := some
                             ("No collocations found for the word \"" ++ trimmedWord ++ "\"."),
                           variant := some "default" }],
          serviceCalls := [trimmedWord] }
    | .success (some cs) =>
        if cs = [] then
          { state := { s with collocations := [], isLoading := false },
            toastCalls := [{ title := some "No Collocations Found",
                             description := some
                               ("No collocations found for the word \"" ++ trimmedWord ++ "\"."),
                             variant := some "default" }],
            serviceCalls := [trimmedWord] }
        else
          { state :=
              { s with
                collocations := cs
                history := pushHistory trimmedWord s.history
                isLoading := false },
            toastCalls := [{ title := some "Success",
                             description := some
                               ("Collocations found for \"" ++ trimmedWord ++ "\"."),
                             variant := none }],
            serviceCalls := [trimmedWord] }

/-- The search handler from the second page variant: same guard, but the raw
(untrimmed) word is sent to the service and pushed into the history, the
empty-result toast uses the `warning` variant, and the catch branch does NOT
clear the displayed collocations. -/
def handleSearchV2 (s : PageState) (svc : ServiceOutcome) : SearchResult :=
  if jsTrim s.word = "" then
    { state := s,
      toastCalls := [{ title := some "Error",
                       description := some "Please enter a word to search for.",
                       variant := some "destructive" }],
      serviceCalls := [] }
  else
    match svc with
    | .failure msg =>
        { state := { s with isLoading := false },
          toastCalls := [{ title := some "Error",
                           description := some (orGeneric msg "Failed to analyze collocations."),
                           variant := some "destructive" }],
          serviceCalls := [s.word] }
    | .success none =>
        { state := { s with collocations := [], isLoading := false },
          toastCalls := [{ title := some "No Collocations Found",
                           description := some
                             ("No collocations found for the word \"" ++ s.word ++ "\"."),
                           variant := some "warning" }],
          serviceCalls := [s.word] }
    | .success (some cs) =>
        if cs = [] then
          { state := { s with collocations := [], isLoading := false },
            toastCalls := [{ title := some "No Collocations Found",
                             description := some
                               ("No collocations found for the word \"" ++ s.word ++ "\"."),
                             variant := some "warning" }],
            serviceCalls := [s.word] }
        else
          { state :=
              { s with
                collocations := cs
                history := pushHistory s.word s.history
                isLoading := false },
            toastCalls := [{ title := some "Success",
                             description := some
                               ("Collocations found for \"" ++ s.word ++ "\"."),
                             variant := none }],
            serviceCalls := [s.word] }

/-! ## Claim C7: the search history invariant -/

theorem list_filter_eq_self {α : Type} (l : List α) (p : α → Bool)
    (h : ∀ x ∈ l, p x = true) : l.filter p = l := by
  induction l with
  | nil => rfl
  | cons a l ih =>
      rw [List.filter_cons, if_pos (h a (List.mem_cons_self a l)),
        ih (fun x hx => h x (List.mem_cons_of_mem a hx))]

theorem filter_ne_length (h : List String) (w : String) (hnd : h.Nodup) (hm : w ∈ h) :
    (h.filter (fun x => x ≠ w)).length + 1 = h.length := by
  induction h with
  | nil => cases hm
  | cons a l ih =>
      rw [List.filter_cons]
      rcases List.nodup_cons.mp hnd with ⟨hna, hnl⟩
      by_cases haw : a = w
      · subst haw
        rw [if_neg (by simp)]
        rw [list_filter_eq_self l (fun x => decide (x ≠ a))
          (fun x hx => decide_eq_true (fun hxa : x = a => hna (hxa ▸ hx)))]
        simp
      · rw [if_pos (decide_eq_true haw)]
        have hml : w ∈ l := by
          rcases List.mem_cons.mp hm with hcase | hcase
          · exact absurd hcase.symm haw
          · exact hcase
        have hih := ih hnl hml
        simp only [List.length_cons]
        omega

theorem pushHistory_length_le (w : String) (h : List String) :
    (pushHistory w h).length ≤ 5 := by
  simp [pushHistory, List.length_take]

theorem pushHistory_nodup (w : String) (h : List String) (hnd : h.Nodup) :
    (pushHistory w h).Nodup := by
  unfold pushHistory
  refine List.Nodup.sublist (List.take_sublist _ _) ?_
  refine List.nodup_cons.mpr ⟨?_, hnd.filter _⟩
  intro hmem
  have hne := (List.mem_filter.mp hmem).2
  simp at hne

theorem pushHistory_head (w : String) (h : List String) :
    (pushHistory w h).head? = some w := rfl

theorem pushHistory_mem_invariant (w : String) (h : List String) (hnd : h.Nodup)
    (hlen : h.length ≤ 5) (hm : w ∈ h) :
    (pushHistory w h).length = h.length ∧ ∀ x, x ∈ pushHistory w h ↔ x ∈ h := by
  have hfl := filter_ne_length h w hnd hm
  have hlcons : (w :: h.filter (fun x => x ≠ w)).length = h.length := by
    simp only [List.length_cons]
    omega
  have htake : (w :: h.filter (fun x => x ≠ w)).take 5 = w :: h.filter (fun x => x ≠ w) :=
    List.take_of_length_le (by rw [hlcons]; exact hlen)
  constructor
  · unfold pushHistory
    rw [htake, hlcons]
  · intro x
    unfold pushHistory
    rw [htake]
    simp only [List.mem_cons, List.mem_filter, decide_eq_true_eq]
    constructor
    · rintro (rfl | ⟨hx, _⟩)
      · exact hm
      · exact hx
    · intro hx
      by_cases hxw : x = w
      · exact Or.inl hxw
      · exact Or.inr ⟨hx, hxw⟩

/-- The stored history after a sequence of successful non-empty lookups,
starting from the empty history. -/
def histFold (ws : List String) : List String :=
  ws.foldl (fun h w => pushHistory w h) []

theorem histFold_append (ws : List String) (w : String) :
    histFold (ws ++ [w]) = pushHistory w (histFold ws) := by
  unfold histFold
  rw [List.foldl_append]
  rfl

theorem histFold_inv (ws : List String) :
    (histFold ws).length ≤ 5 ∧ (histFold ws).Nodup := by
  suffices haux : ∀ (h0 : List String), h0.length ≤ 5 → h0.Nodup →
      (ws.foldl (fun h w => pushHistory w h) h0).length ≤ 5
      ∧ (ws.foldl (fun h w => pushHistory w h) h0).Nodup by
    exact haux [] (by simp) List.nodup_nil
  induction ws with
  | nil => exact fun h0 h1 h2 => ⟨h1, h2⟩
  | cons w ws ih =>
      intro h0 _ h2
      rw [List.foldl_cons]
      exact ih _ (pushHistory_length_le w h0) (pushHistory_nodup w h0 h2)

/-- Claim C7: under any sequence of successful non-empty lookups from the
empty history, the history stays at most 5 long with no duplicate words; the
word just looked up is always at the front; re-looking-up a word already in
the history keeps the length and the set of entries (move to front, no
duplicate). The success path of `handleSearch` updates the history exactly
with this `pushHistory` updater. -/
theorem C7_history_invariant (ws : List String) :
    (histFold ws).length ≤ 5
    ∧ (histFold ws).Nodup
    ∧ (∀ w : String, (histFold (ws ++ [w])).head? = some w)
    ∧ (∀ w : String, w ∈ histFold ws →
        (histFold (ws ++ [w])).length = (histFold ws).length
        ∧ ∀ x, x ∈ histFold (ws ++ [w]) ↔ x ∈ histFold ws)
    ∧ (∀ (s : PageState) (cs : List Collocation), jsTrim s.word ≠ "" → cs ≠ [] →
        (handleSearchV1 s (.success (some cs))).state.history
          = pushHistory (jsTrim s.word) s.history) := by
  obtain ⟨hlen, hnd⟩ := histFold_inv ws
  refine ⟨hlen, hnd, ?_, ?_, ?_⟩
  · intro w
    rw [histFold_append]
    exact pushHistory_head w _
  · intro w hw
    rw [histFold_append]
    exact pushHistory_mem_invariant w _ hnd hlen hw
  · intro s cs hw hcs
    simp [handleSearchV1, hw, hcs]

theorem C7_history_invariant_witness :
    (histFold (["quick", "strong"] ++ ["strong"])).length
      = (histFold ["quick", "strong"]).length :=
  ((C7_history_invariant ["quick", "strong"]).2.2.2.1 "strong" (by decide)).1

/-! ## Claim C8: error handling of the search handler -/

/-- Counterexample to claim C8: in the second page variant the catch branch
does not clear the displayed collocations — after a failed lookup the
previously displayed results are still there, not the empty list. -/
theorem C8_counterexample :
    (handleSearchV2
        { word := "strong",
          collocations := [{ collocate := "coffee", frequency := 12,
                             exampleSentences := ["I need strong coffee."] }],
          history := [], isLoading := false }
        (.failure (some "Service unavailable"))).state.collocations
      ≠ [] := by decide

/-- Claim C8 (amended): on a failed lookup both variants surface one
destructive notification whose description is the failure message when that
is non-empty and a generic text of the variant otherwise, both leave the history
unchanged, and both clear the loading flag on every service exit path; the
first variant clears the displayed collocations, while the second leaves them
unchanged. -/
theorem C8_error_handling (s : PageState) (hw : jsTrim s.word ≠ "") :
    (∀ m : String, m ≠ "" →
       (handleSearchV1 s (.failure (some m))).toastCalls
         = [{ title := some "Error", description := some m, variant := some "destructive" }]
       ∧ (handleSearchV2 s (.failure (some m))).toastCalls
         = [{ title := some "Error", description := some m, variant := some "destructive" }])
    ∧ (handleSearchV1 s (.failure none)).toastCalls
        = [{ title := some "Error",
             description := some "Failed to analyze collocations. Please try again.",
             variant := some "destructive" }]
    ∧ (handleSearchV2 s (.failure none)).toastCalls
        = [{ title := some "Error",
             description := some "Failed to analyze collocations.",
             variant := some "destructive" }]
    ∧ (∀ msg : Option String,
         (handleSearchV1 s (.failure msg)).state.history = s.history
         ∧ (handleSearchV2 s (.failure msg)).state.history = s.history
         ∧ (handleSearchV1 s (.failure msg)).state.collocations = []
         ∧ (handleSearchV2 s (.failure msg)).state.collocations = s.collocations)
    ∧ (∀ out : ServiceOutcome,
         (handleSearchV1 s out).state.isLoading = false
         ∧ (handleSearchV2 s out).state.isLoading = false) := by
  refine ⟨?_, ?_, ?_, ?_, ?_⟩
  · intro m hm
    constructor <;> simp [handleSearchV1, handleSearchV2, orGeneric, hw, hm]
  · simp [handleSearchV1, orGeneric, hw]
  · simp [handleSearchV2, orGeneric, hw]
  · intro msg
    refine ⟨?_, ?_, ?_, ?_⟩ <;> simp [handleSearchV1, handleSearchV2, hw]
  · intro out
    cases out with
    | failure msg => constructor <;> simp [handleSearchV1, handleSearchV2, hw]
    | success ocs =>
        cases ocs with
        | none => constructor <;> simp [handleSearchV1, handleSearchV2, hw]
        | some cs =>
            by_cases hcs : cs = [] <;>
              constructor <;> simp [handleSearchV1, handleSearchV2, hw, hcs]

theorem C8_error_handling_witness :
    (handleSearchV1 { word := "w", collocations := [], history := [], isLoading := true }
        (.failure none)).toastCalls
      = [{ title := some "Error",
           description := some "Failed to analyze collocations. Please try again.",
           variant := some "destructive" }] :=
  (C8_error_handling
    { word := "w", collocations := [], history := [], isLoading := true } (by decide)).2.1

/-! ## Claim C9: the validation guard -/

/-- Claim C9: when the word trims to empty, `handleSearch` (both variants)
calls the service on nothing, surfaces exactly one validation notification,
and leaves the whole page state — history, collocations, loading flag, word —
untouched. -/
theorem C9_validation_guard (s : PageState) (hw : jsTrim s.word = "") (out : ServiceOutcome) :
    (handleSearchV1 s out).state = s
    ∧ (handleSearchV1 s out).serviceCalls = []
    ∧ (handleSearchV1 s out).toastCalls
        = [{ title := some "Error",
             description := some "Please enter a word to search for.",
             variant := some "destructive" }]
    ∧ (handleSearchV2 s out).state = s
    ∧ (handleSearchV2 s out).serviceCalls = []
    ∧ (handleSearchV2 s out).toastCalls
        = [{ title := some "Error",
             description := some "Please enter a word to search for.",
             variant := some "destructive" }] := by
  refine ⟨?_, ?_, ?_, ?_, ?_, ?_⟩ <;> simp [handleSearchV1, handleSearchV2, hw]

theorem C9_validation_guard_witness :
    (handleSearchV1 { word := "   ", collocations := [], history := ["a"], isLoading := false }
        (.success none)).serviceCalls = [] :=
  (C9_validation_guard
    { word := "   ", collocations := [], history := ["a"], isLoading := false }
    (by decide) (.success none)).2.1

end WC
